import Mathlib

/-!
Shallow embedding of the redis-mq consumer core (consumer.go, option.go,
deadLetter.go) and the stream-client acknowledge operation (redis client,
XAck), together with theorems settling the specification claims.

Modelling conventions:
 - A Go `map[redis.MsgEntity]int` becomes an association list
   `List (MsgEntity × Int)` with unique keys (Go map keys are unique);
   `failureCounts[m]++` on an absent key inserts the value 1, as in Go,
   where the zero value 0 is incremented.
 - The user callback, the XAck round trip and the dead-letter Deliver call
   are effectful; their outcomes are supplied as oracle functions
   `MsgEntity → Bool` (true = success / nil error).
 - `time.Duration` values are `Int` nanoseconds; `time.Second = 10^9`.
 - Nil-able Go references (callback, client, dead-letter mailbox) are
   modelled by presence flags or `Option`.
 - Each phase additionally emits a list of `Event`s (callback invocation,
   dead-letter delivery, acknowledgment attempt) so that temporal claims
   about the order of acknowledgments relative to callbacks can be stated
   over the trace of a run of the delivery loop.
-/

namespace RedisMQ

/-- Message entity of the stream client: id, key and value strings.
Identity for retry bookkeeping is the whole record, as in the Go map key. -/
structure MsgEntity where
  msgID : String
  key : String
  val : String
  deriving DecidableEq

/-- Observable events of one consumer delivery loop, in program order:
a callback invocation returning success or failure, a dead-letter delivery
attempt, and an acknowledgment attempt. -/
inductive Event where
  | cb (m : MsgEntity) (ok : Bool)
  | deliver (m : MsgEntity) (ok : Bool)
  | ack (m : MsgEntity) (ok : Bool)
  deriving DecidableEq

/-- Failure-count table: association list mirroring `map[redis.MsgEntity]int`. -/
abbrev FCTable : Type := List (MsgEntity × Int)

/-- Lookup of a message in the failure-count table (first matching key). -/
def lookupFC : FCTable → MsgEntity → Option Int
  | [], _ => none
  | e :: rest, m => if e.1 = m then some e.2 else lookupFC rest m

/-- Go `failureCounts[m]++`: increment the entry for `m`, inserting 1 when
the key is absent (the zero value incremented). -/
def incrFC : FCTable → MsgEntity → FCTable
  | [], m => [(m, 1)]
  | e :: rest, m => if e.1 = m then (e.1, e.2 + 1) :: rest else e :: incrFC rest m

/-- Go `delete(failureCounts, m)`: remove the entry for `m`. -/
def eraseFC : FCTable → MsgEntity → FCTable
  | [], _ => []
  | e :: rest, m => if e.1 = m then rest else e :: eraseFC rest m

/-- Body of the loop in `handlerMsg` for one message: invoke the callback;
on failure increment the failure count and continue; on success attempt
XAck; on ack failure log and continue; on ack success delete the entry. -/
def handlerMsgStep (cbF ackF : MsgEntity → Bool) (t : FCTable) (m : MsgEntity) :
    FCTable × List Event :=
  if cbF m then
    if ackF m then (eraseFC t m, [Event.cb m true, Event.ack m true])
    else (t, [Event.cb m true, Event.ack m false])
  else (incrFC t m, [Event.cb m false])

/-- The `handlerMsg` loop over a claimed batch of messages. -/
def handlerMsg (cbF ackF : MsgEntity → Bool) : FCTable → List MsgEntity → FCTable × List Event
  | t, [] => (t, [])
  | t, m :: rest =>
    let s := handlerMsgStep cbF ackF t m
    let r := handlerMsg cbF ackF s.1 rest
    (r.1, s.2 ++ r.2)

/-- Body of the loop in `deliverDeadLetter` for one table entry: entries
with count below `maxRetryLimit` are skipped (kept); otherwise Deliver is
attempted (its error only logged), then XAck is attempted regardless; on
ack success the entry is deleted, on ack failure it is kept. Returns the
kept portion of the table contributed by this entry plus emitted events. -/
def dlStep (lim : Int) (dF ackF : MsgEntity → Bool) (e : MsgEntity × Int) :
    FCTable × List Event :=
  if e.2 < lim then ([e], [])
  else if ackF e.1 then ([], [Event.deliver e.1 (dF e.1), Event.ack e.1 true])
  else ([e], [Event.deliver e.1 (dF e.1), Event.ack e.1 false])

/-- The `deliverDeadLetter` scan over the failure-count table. -/
def deliverDeadLetter (lim : Int) (dF ackF : MsgEntity → Bool) : FCTable → FCTable × List Event
  | [] => ([], [])
  | e :: rest =>
    let s := dlStep lim dF ackF e
    let r := deliverDeadLetter lim dF ackF rest
    (s.1 ++ r.1, s.2 ++ r.2)

/-- One nanosecond-denominated second, Go `time.Second`. -/
def timeSecond : Int := 1000000000

/-- Consumer options record (option.go). Durations in nanoseconds; the
dead-letter mailbox is its Deliver success oracle, absent when nil. -/
structure ConsumerOptions where
  receiveTimeout : Int
  maxRetryLimit : Int
  deadLetterMailbox : Option (MsgEntity → Bool)
  deadLetterDeliverTimeout : Int
  handleMsgTimeout : Int

/-- Zero value of `ConsumerOptions`, Go `&ConsumerOptions{}`. -/
def emptyConsumerOptions : ConsumerOptions :=
  { receiveTimeout := 0
    maxRetryLimit := 0
    deadLetterMailbox := none
    deadLetterDeliverTimeout := 0
    handleMsgTimeout := 0 }

/-- The default dead-letter mailbox `NewDeadLetterLogger`: its Deliver only
logs and always returns nil. -/
def NewDeadLetterLogger : MsgEntity → Bool := fun _ => true

/-- Defaulting of consumer options, `repairConsumer` in option.go. -/
def repairConsumer (o : ConsumerOptions) : ConsumerOptions :=
  { receiveTimeout := if o.receiveTimeout < 0 then 2 * timeSecond else o.receiveTimeout
    maxRetryLimit := if o.maxRetryLimit < 0 then 3 else o.maxRetryLimit
    deadLetterMailbox :=
      if o.deadLetterMailbox.isNone then some NewDeadLetterLogger else o.deadLetterMailbox
    deadLetterDeliverTimeout :=
      if o.deadLetterDeliverTimeout ≤ 0 then timeSecond else o.deadLetterDeliverTimeout
    handleMsgTimeout := if o.handleMsgTimeout ≤ 0 then timeSecond else o.handleMsgTimeout }

/-- Consumer state (consumer.go). `ctxCancelled` models the cancellation
token, `goroutineCount` the number of background execution contexts started
by `go c.run()`, and the presence flags model the nil checks of checkParam. -/
structure Consumer where
  ctxCancelled : Bool
  callbackSet : Bool
  clientSet : Bool
  topic : String
  groupID : String
  consumerID : String
  failureCounts : FCTable
  opts : ConsumerOptions
  goroutineCount : Nat

/-- Parameter validation `checkParam`: nil callback, then nil client, then
empty topic, consumer id or group id. -/
def checkParam (c : Consumer) : Option String :=
  if c.callbackSet = false then some "callback function cannot be empty"
  else if c.clientSet = false then some "redis client cannot be empty"
  else if c.topic = "" ∨ c.consumerID = "" ∨ c.groupID = "" then
    some "topic, group_id and consumer_id cannot be empty"
  else none

/-- Constructor `NewConsumer`: build the consumer with the zero options and
an empty failure-count table, validate, apply the option functions, repair
defaults, then start exactly one background goroutine and return. -/
def NewConsumer (clientSet : Bool) (topic groupID consumerID : String)
    (callbackSet : Bool) (opts : List (ConsumerOptions → ConsumerOptions)) :
    Except String Consumer :=
  let c : Consumer :=
    { ctxCancelled := false
      callbackSet := callbackSet
      clientSet := clientSet
      topic := topic
      groupID := groupID
      consumerID := consumerID
      failureCounts := []
      opts := emptyConsumerOptions
      goroutineCount := 0 }
  match checkParam c with
  | some e => Except.error e
  | none =>
    let o := repairConsumer (opts.foldl (fun acc f => f acc) emptyConsumerOptions)
    Except.ok { c with opts := o, goroutineCount := 1 }

/-- Number of background execution contexts started by a NewConsumer result:
none when construction failed. -/
def startedCount : Except String Consumer → Nat
  | Except.error _ => 0
  | Except.ok c => c.goroutineCount

/-- Consumer `Stop`: signals the cancellation token (context.CancelFunc)
and nothing else. -/
def Stop (c : Consumer) : Consumer :=
  { c with ctxCancelled := true }

/-- Stream-client `XAck` (redis client): validates non-empty parameters,
then, given the integer reply of a successful XACK round trip, errors
unless the reply equals 1. -/
def XAck (topic groupID msgID : String) (reply : Int) : Except String Unit :=
  if topic = "" ∨ groupID = "" ∨ msgID = "" then
    Except.error "redis XAck topic, group_id and msg_id cannot be empty"
  else if reply ≠ 1 then Except.error "invalid reply"
  else Except.ok ()

/-- Inputs of one iteration of the delivery loop `run`: the batch claimed
as new, the pending batch, transport error flags for the two claims, and
the outcome oracles of the callback, ack and dead-letter delivery calls
made during that iteration. -/
structure IterInput where
  receiveErr : Bool
  newMsgs : List MsgEntity
  cbNew : MsgEntity → Bool
  ackNew : MsgEntity → Bool
  dF : MsgEntity → Bool
  ackDL : MsgEntity → Bool
  pendingErr : Bool
  pendingMsgs : List MsgEntity
  cbPend : MsgEntity → Bool
  ackPend : MsgEntity → Bool

/-- One iteration of `run`: on a receive error the iteration restarts
(phases 2 to 4 skipped); otherwise handle the new batch, escalate dead
letters, and, unless claiming pending messages fails, handle the pending
batch. Returns the new failure-count table and the emitted event trace. -/
def runIteration (lim : Int) (t : FCTable) (inp : IterInput) : FCTable × List Event :=
  if inp.receiveErr then (t, [])
  else
    let h1 := handlerMsg inp.cbNew inp.ackNew t inp.newMsgs
    let d := deliverDeadLetter lim inp.dF inp.ackDL h1.1
    if inp.pendingErr then (d.1, h1.2 ++ d.2)
    else
      let h2 := handlerMsg inp.cbPend inp.ackPend d.1 inp.pendingMsgs
      (h2.1, h1.2 ++ d.2 ++ h2.2)

/-- The delivery loop over a finite schedule of iteration inputs,
accumulating the event trace. -/
def runLoop (lim : Int) : FCTable → List IterInput → FCTable × List Event
  | t, [] => (t, [])
  | t, inp :: rest =>
    let s := runIteration lim t inp
    let r := runLoop lim s.1 rest
    (r.1, s.2 ++ r.2)

/-- Keys of a failure-count table, the message entities. -/
def keysFC (t : FCTable) : List MsgEntity :=
  t.map Prod.fst

/-- Message an event is about. -/
def eventMsg : Event → MsgEntity
  | Event.cb m _ => m
  | Event.deliver m _ => m
  | Event.ack m _ => m

/-- The property stated by the at-least-once claim, as a scan over a trace:
every acknowledgment attempt is for a message for which some earlier
callback invocation returned success (`seen` carries the messages with an
earlier callback success). -/
def ackAfterCbSuccess (seen : MsgEntity → Bool) : List Event → Bool
  | [] => true
  | Event.cb m true :: rest => ackAfterCbSuccess (fun x => seen x || decide (x = m)) rest
  | Event.cb _ false :: rest => ackAfterCbSuccess seen rest
  | Event.deliver _ _ :: rest => ackAfterCbSuccess seen rest
  | Event.ack m _ :: rest => seen m && ackAfterCbSuccess seen rest

/-- Weakened trace property: every acknowledgment attempt is for a message
with an earlier callback success or an earlier dead-letter delivery
attempt (the escalation path acknowledges without callback success). -/
def ackAfterCbSuccessOrDeliver (seen : MsgEntity → Bool) : List Event → Bool
  | [] => true
  | Event.cb m true :: rest =>
    ackAfterCbSuccessOrDeliver (fun x => seen x || decide (x = m)) rest
  | Event.cb _ false :: rest => ackAfterCbSuccessOrDeliver seen rest
  | Event.deliver m _ :: rest =>
    ackAfterCbSuccessOrDeliver (fun x => seen x || decide (x = m)) rest
  | Event.ack m _ :: rest => seen m && ackAfterCbSuccessOrDeliver seen rest

/-- Accumulation of the seen-set of `ackAfterCbSuccessOrDeliver` along a
trace, used to split the scan across a concatenation. -/
def seenAfterG (seen : MsgEntity → Bool) : List Event → MsgEntity → Bool
  | [] => seen
  | Event.cb m true :: rest => seenAfterG (fun x => seen x || decide (x = m)) rest
  | Event.cb _ false :: rest => seenAfterG seen rest
  | Event.deliver m _ :: rest => seenAfterG (fun x => seen x || decide (x = m)) rest
  | Event.ack _ _ :: rest => seenAfterG seen rest

/-- Failure-count tables reachable from the initial empty table of a fresh
consumer by any sequence of message-handling and dead-letter-escalation
phases, with arbitrary batches, retry limit and call outcomes. -/
inductive ReachableFC : FCTable → Prop where
  | init : ReachableFC []
  | handle (cbF ackF : MsgEntity → Bool) (msgs : List MsgEntity) {t : FCTable} :
      ReachableFC t → ReachableFC (handlerMsg cbF ackF t msgs).1
  | escalate (lim : Int) (dF ackF : MsgEntity → Bool) {t : FCTable} :
      ReachableFC t → ReachableFC (deliverDeadLetter lim dF ackF t).1

/-- Sample message entity for concrete runs. -/
def msgA : MsgEntity :=
  ⟨"1710403869444-0", "k1", "v1"⟩

/-- Iteration input of a concrete run in which the callback fails on the
new batch containing only `msgA` and every transport call succeeds. -/
def cbFailInput : IterInput :=
  { receiveErr := false
    newMsgs := [msgA]
    cbNew := fun _ => false
    ackNew := fun _ => true
    dF := fun _ => true
    ackDL := fun _ => true
    pendingErr := false
    pendingMsgs := []
    cbPend := fun _ => true
    ackPend := fun _ => true }

/-- Sample consumer state used to instantiate hypotheses of theorems about
the consumer lifecycle. -/
def sampleConsumer : Consumer :=
  { ctxCancelled := false
    callbackSet := true
    clientSet := true
    topic := "t"
    groupID := "g"
    consumerID := "cid"
    failureCounts := []
    opts := repairConsumer emptyConsumerOptions
    goroutineCount := 1 }

lemma dl_cons (lim : Int) (dF ackF : MsgEntity → Bool) (e : MsgEntity × Int)
    (rest : FCTable) :
    deliverDeadLetter lim dF ackF (e :: rest) =
      ((dlStep lim dF ackF e).1 ++ (deliverDeadLetter lim dF ackF rest).1,
        (dlStep lim dF ackF e).2 ++ (deliverDeadLetter lim dF ackF rest).2) :=
  rfl

lemma dlStep_low (lim : Int) (dF ackF : MsgEntity → Bool) (e : MsgEntity × Int)
    (h : e.2 < lim) : dlStep lim dF ackF e = ([e], []) := by
  simp [dlStep, h]

lemma dlStep_high (lim : Int) (dF ackF : MsgEntity → Bool) (e : MsgEntity × Int)
    (h : ¬ e.2 < lim) :
    dlStep lim dF ackF e =
      ((if ackF e.1 then [] else [e]),
        [Event.deliver e.1 (dF e.1), Event.ack e.1 (ackF e.1)]) := by
  by_cases h2 : ackF e.1 <;> simp [dlStep, h, h2]

lemma lookupFC_eq_none_iff (t : FCTable) (m : MsgEntity) :
    lookupFC t m = none ↔ m ∉ keysFC t := by
  induction t with
  | nil => simp [lookupFC, keysFC]
  | cons e rest ih =>
    by_cases h : e.1 = m <;> simp [lookupFC, keysFC, h] <;> simp [keysFC] at ih <;>
      tauto

lemma lookupFC_incrFC (t : FCTable) (m : MsgEntity) :
    lookupFC (incrFC t m) m = some ((lookupFC t m).getD 0 + 1) := by
  induction t with
  | nil => simp [incrFC, lookupFC]
  | cons e rest ih =>
    by_cases h : e.1 = m <;> simp [incrFC, lookupFC, h, ih]

lemma mem_incrFC_of_lookup_none (t : FCTable) (m : MsgEntity)
    (h : lookupFC t m = none) : (m, (1 : Int)) ∈ incrFC t m := by
  induction t with
  | nil => simp [incrFC]
  | cons e rest ih =>
    simp only [lookupFC] at h
    by_cases he : e.1 = m
    · simp [he] at h
    · simp only [he, if_false] at h
      simp only [incrFC, he, if_false, List.mem_cons]
      exact Or.inr (ih h)

lemma mem_eraseFC (t : FCTable) (m : MsgEntity) :
    ∀ e ∈ eraseFC t m, e ∈ t := by
  induction t with
  | nil => simp [eraseFC]
  | cons e rest ih =>
    intro x hx
    by_cases h : e.1 = m
    · simp only [eraseFC, h, if_true] at hx
      exact List.mem_cons_of_mem _ hx
    · simp only [eraseFC, h, if_false, List.mem_cons] at hx
      rcases hx with hx | hx
      · simp [hx]
      · exact List.mem_cons_of_mem _ (ih x hx)

lemma lookupFC_eraseFC_of_nodup (t : FCTable) (m : MsgEntity)
    (hnd : (keysFC t).Nodup) : lookupFC (eraseFC t m) m = none := by
  induction t with
  | nil => simp [eraseFC, lookupFC]
  | cons e rest ih =>
    simp only [keysFC, List.map_cons, List.nodup_cons] at hnd
    by_cases h : e.1 = m
    · simp only [eraseFC, h, if_true]
      rw [lookupFC_eq_none_iff]
      rw [h] at hnd
      exact hnd.1
    · simp only [eraseFC, h, if_false, lookupFC]
      exact ih hnd.2

lemma dl_fst_subset (lim : Int) (dF ackF : MsgEntity → Bool) (t : FCTable) :
    ∀ e ∈ (deliverDeadLetter lim dF ackF t).1, e ∈ t := by
  induction t with
  | nil => simp [deliverDeadLetter]
  | cons e rest ih =>
    intro x hx
    rw [dl_cons] at hx
    simp only [List.mem_append] at hx
    rcases hx with hx | hx
    · by_cases h1 : e.2 < lim
      · rw [dlStep_low lim dF ackF e h1] at hx
        simp at hx
        simp [hx]
      · rw [dlStep_high lim dF ackF e h1] at hx
        by_cases h2 : ackF e.1 <;> simp [h2] at hx
        simp [hx]
    · exact List.mem_cons_of_mem _ (ih x hx)

lemma dl_keys_not_mem (lim : Int) (dF ackF : MsgEntity → Bool) (t : FCTable)
    (m : MsgEntity) (h : m ∉ keysFC t) :
    m ∉ keysFC (deliverDeadLetter lim dF ackF t).1 := by
  intro hc
  apply h
  simp only [keysFC, List.mem_map] at hc
  obtain ⟨x, hx, hx1⟩ := hc
  have := dl_fst_subset lim dF ackF t x hx
  simp only [keysFC, List.mem_map]
  exact ⟨x, this, hx1⟩

lemma dl_eventMsg_mem (lim : Int) (dF ackF : MsgEntity → Bool) (t : FCTable) :
    ∀ ev ∈ (deliverDeadLetter lim dF ackF t).2, eventMsg ev ∈ keysFC t := by
  induction t with
  | nil => simp [deliverDeadLetter]
  | cons e rest ih =>
    intro ev hev
    rw [dl_cons] at hev
    simp only [List.mem_append] at hev
    rcases hev with hev | hev
    · by_cases h1 : e.2 < lim
      · rw [dlStep_low lim dF ackF e h1] at hev
        simp at hev
      · rw [dlStep_high lim dF ackF e h1] at hev
        simp only [List.mem_cons, List.not_mem_nil, or_false] at hev
        rcases hev with hev | hev <;> simp [hev, eventMsg, keysFC]
    · exact List.mem_cons_of_mem _ (ih ev hev)

lemma dl_skipped (lim : Int) (dF ackF : MsgEntity → Bool) (t : FCTable)
    (hnd : (keysFC t).Nodup) (m : MsgEntity) (c : Int) (hmem : (m, c) ∈ t)
    (hlt : c < lim) :
    (m, c) ∈ (deliverDeadLetter lim dF ackF t).1 ∧
      ∀ ev ∈ (deliverDeadLetter lim dF ackF t).2, eventMsg ev ≠ m := by
  induction t with
  | nil => simp at hmem
  | cons e rest ih =>
    simp only [keysFC, List.map_cons, List.nodup_cons] at hnd
    rw [dl_cons]
    rcases List.mem_cons.1 hmem with he | he
    · have h1 : e.1 = m := by rw [← he]
      have h2 : e.2 = c := by rw [← he]
      have hlow : e.2 < lim := by omega
      rw [dlStep_low lim dF ackF e hlow]
      constructor
      · simp [← he]
      · intro ev hev
        simp only [List.nil_append] at hev
        have := dl_eventMsg_mem lim dF ackF rest ev hev
        intro hc
        rw [hc, ← h1] at this
        exact hnd.1 this
    · have hne : e.1 ≠ m := by
        intro hc
        apply hnd.1
        rw [hc]
        exact List.mem_map_of_mem Prod.fst he
      have IH := ih hnd.2 he
      constructor
      · simp only [List.mem_append]
        exact Or.inr IH.1
      · intro ev hev
        simp only [List.mem_append] at hev
        rcases hev with hev | hev
        · by_cases h1 : e.2 < lim
          · rw [dlStep_low lim dF ackF e h1] at hev
            simp at hev
          · rw [dlStep_high lim dF ackF e h1] at hev
            simp only [List.mem_cons, List.not_mem_nil, or_false] at hev
            rcases hev with hev | hev <;> simp [hev, eventMsg, hne]
        · exact IH.2 ev hev

lemma dl_escalated (lim : Int) (dF ackF : MsgEntity → Bool) (t : FCTable)
    (m : MsgEntity) (c : Int) (hmem : (m, c) ∈ t) (hge : ¬ c < lim) :
    Event.deliver m (dF m) ∈ (deliverDeadLetter lim dF ackF t).2 ∧
      Event.ack m (ackF m) ∈ (deliverDeadLetter lim dF ackF t).2 := by
  induction t with
  | nil => simp at hmem
  | cons e rest ih =>
    rw [dl_cons]
    simp only [List.mem_append]
    rcases List.mem_cons.1 hmem with he | he
    · have h1 : e.1 = m := by rw [← he]
      have h2 : e.2 = c := by rw [← he]
      have hhigh : ¬ e.2 < lim := by omega
      rw [dlStep_high lim dF ackF e hhigh, h1]
      constructor
      · exact Or.inl (by simp)
      · exact Or.inl (by simp)
    · have IH := ih he
      exact ⟨Or.inr IH.1, Or.inr IH.2⟩

lemma dl_kept_iff (lim : Int) (dF ackF : MsgEntity → Bool) (t : FCTable)
    (hnd : (keysFC t).Nodup) (m : MsgEntity) (c : Int) (hmem : (m, c) ∈ t) :
    m ∉ keysFC (deliverDeadLetter lim dF ackF t).1 ↔ (lim ≤ c ∧ ackF m = true) := by
  induction t with
  | nil => simp at hmem
  | cons e rest ih =>
    simp only [keysFC, List.map_cons, List.nodup_cons] at hnd
    rw [dl_cons]
    rcases List.mem_cons.1 hmem with he | he
    · have h1 : e.1 = m := by rw [← he]
      have h2 : e.2 = c := by rw [← he]
      have hmnotrest : m ∉ keysFC rest := by
        rw [← h1]
        exact hnd.1
      have hmnotdl := dl_keys_not_mem lim dF ackF rest m hmnotrest
      by_cases hlt : e.2 < lim
      · rw [dlStep_low lim dF ackF e hlt]
        simp only [keysFC, List.map_append, List.mem_append]
        constructor
        · intro h
          exfalso
          exact h (Or.inl (by simp [h1]))
        · intro h
          omega
      · by_cases hack : ackF e.1
        · rw [dlStep_high lim dF ackF e hlt, hack]
          simp only [if_true, keysFC, List.map_append, List.map_nil, List.nil_append]
          constructor
          · intro _
            rw [h1] at hack
            exact ⟨by omega, hack⟩
          · intro _
            exact hmnotdl
        · rw [dlStep_high lim dF ackF e hlt]
          simp only [hack, if_false, keysFC, List.map_append, List.mem_append]
          constructor
          · intro h
            exfalso
            exact h (Or.inl (by simp [h1]))
          · intro h
            rw [h1] at hack
            rw [h.2] at hack
            simp at hack
    · have hne : e.1 ≠ m := by
        intro hc
        apply hnd.1
        rw [hc]
        exact List.mem_map_of_mem Prod.fst he
      have IH := ih hnd.2 he
      rw [← IH]
      simp only [keysFC, List.map_append, List.mem_append]
      constructor
      · intro h hc
        exact h (Or.inr hc)
      · intro h hc
        rcases hc with hc | hc
        · by_cases h1 : e.2 < lim
          · rw [dlStep_low lim dF ackF e h1] at hc
            simp at hc
            exact hne hc.symm
          · rw [dlStep_high lim dF ackF e h1] at hc
            by_cases h2 : ackF e.1 <;> simp [h2] at hc
            exact hne hc.symm
        · exact h hc

lemma dl_kept_of_ack_false (lim : Int) (dF ackF : MsgEntity → Bool) (t : FCTable)
    (m : MsgEntity) (c : Int) (hmem : (m, c) ∈ t) (hack : ackF m = false) :
    (m, c) ∈ (deliverDeadLetter lim dF ackF t).1 := by
  induction t with
  | nil => simp at hmem
  | cons e rest ih =>
    rw [dl_cons]
    simp only [List.mem_append]
    rcases List.mem_cons.1 hmem with he | he
    · left
      by_cases h1 : e.2 < lim
      · rw [dlStep_low lim dF ackF e h1]
        simp [← he]
      · rw [dlStep_high lim dF ackF e h1]
        have h2 : e.1 = m := by rw [← he]
        rw [h2, hack]
        simp [← he]
    · exact Or.inr (ih he)

lemma handlerMsg_cons (cbF ackF : MsgEntity → Bool) (t : FCTable) (m : MsgEntity)
    (msgs : List MsgEntity) :
    handlerMsg cbF ackF t (m :: msgs) =
      ((handlerMsg cbF ackF (handlerMsgStep cbF ackF t m).1 msgs).1,
        (handlerMsgStep cbF ackF t m).2 ++
          (handlerMsg cbF ackF (handlerMsgStep cbF ackF t m).1 msgs).2) :=
  rfl

lemma incrFC_counts (t : FCTable) (m : MsgEntity) (h : ∀ e ∈ t, 1 ≤ e.2) :
    ∀ e ∈ incrFC t m, 1 ≤ e.2 := by
  induction t with
  | nil => simp [incrFC]
  | cons e rest ih =>
    intro x hx
    by_cases hm : e.1 = m
    · simp only [incrFC, hm, if_true, List.mem_cons] at hx
      rcases hx with hx | hx
      · have he := h e (List.mem_cons_self e rest)
        rw [hx]
        simp only
        omega
      · exact h x (List.mem_cons_of_mem _ hx)
    · simp only [incrFC, hm, if_false, List.mem_cons] at hx
      rcases hx with hx | hx
      · exact hx ▸ h e (List.mem_cons_self e rest)
      · exact ih (fun y hy => h y (List.mem_cons_of_mem _ hy)) x hx

lemma handlerMsgStep_counts (cbF ackF : MsgEntity → Bool) (t : FCTable) (m : MsgEntity)
    (h : ∀ e ∈ t, 1 ≤ e.2) : ∀ e ∈ (handlerMsgStep cbF ackF t m).1, 1 ≤ e.2 := by
  by_cases h1 : cbF m
  · by_cases h2 : ackF m
    · simp only [handlerMsgStep, h1, h2, if_true]
      intro x hx
      exact h x (mem_eraseFC t m x hx)
    · simp only [handlerMsgStep, h1, h2, if_true, Bool.false_eq_true, if_false]
      exact h
  · simp only [handlerMsgStep, h1, Bool.false_eq_true, if_false]
    exact incrFC_counts t m h

lemma handlerMsg_counts (cbF ackF : MsgEntity → Bool) (msgs : List MsgEntity) :
    ∀ t : FCTable, (∀ e ∈ t, 1 ≤ e.2) →
      ∀ e ∈ (handlerMsg cbF ackF t msgs).1, 1 ≤ e.2 := by
  induction msgs with
  | nil =>
    intro t h
    simpa [handlerMsg] using h
  | cons m rest ih =>
    intro t h
    rw [handlerMsg_cons]
    exact ih _ (handlerMsgStep_counts cbF ackF t m h)

lemma dl_counts (lim : Int) (dF ackF : MsgEntity → Bool) (t : FCTable)
    (h : ∀ e ∈ t, 1 ≤ e.2) :
    ∀ e ∈ (deliverDeadLetter lim dF ackF t).1, 1 ≤ e.2 :=
  fun e he => h e (dl_fst_subset lim dF ackF t e he)

/-- C1: in the escalation scan, every failure-count entry whose count has
reached the retry limit gets a dead-letter delivery attempt and an
acknowledgment attempt regardless of the delivery outcome; on ack success
the entry is removed, on ack failure it is kept; entries below the limit
are kept and trigger no delivery and no acknowledgment. -/
theorem c1_dead_letter_escalation (lim : Int) (dF ackF : MsgEntity → Bool)
    (t : FCTable) (hnd : (keysFC t).Nodup) (m : MsgEntity) (c : Int)
    (hmem : (m, c) ∈ t) :
    (c < lim →
      (m, c) ∈ (deliverDeadLetter lim dF ackF t).1 ∧
      (∀ b, Event.deliver m b ∉ (deliverDeadLetter lim dF ackF t).2) ∧
      (∀ b, Event.ack m b ∉ (deliverDeadLetter lim dF ackF t).2)) ∧
    (lim ≤ c →
      Event.deliver m (dF m) ∈ (deliverDeadLetter lim dF ackF t).2 ∧
      Event.ack m (ackF m) ∈ (deliverDeadLetter lim dF ackF t).2 ∧
      (ackF m = true → m ∉ keysFC (deliverDeadLetter lim dF ackF t).1) ∧
      (ackF m = false → (m, c) ∈ (deliverDeadLetter lim dF ackF t).1)) := by
  constructor
  · intro hlt
    obtain ⟨hkept, hev⟩ := dl_skipped lim dF ackF t hnd m c hmem hlt
    refine ⟨hkept, ?_, ?_⟩
    · intro b hb
      exact hev _ hb rfl
    · intro b hb
      exact hev _ hb rfl
  · intro hge
    have hge2 : ¬ c < lim := not_lt.2 hge
    obtain ⟨hd, ha⟩ := dl_escalated lim dF ackF t m c hmem hge2
    refine ⟨hd, ha, ?_, ?_⟩
    · intro hack
      exact (dl_kept_iff lim dF ackF t hnd m c hmem).2 ⟨hge, hack⟩
    · intro hack
      exact dl_kept_of_ack_false lim dF ackF t m c hmem hack

/-- Witness for C1: a table with one entry at the limit, delivery and
acknowledgment both succeeding. -/
theorem c1_dead_letter_escalation_witness :
    Event.deliver msgA true ∈
      (deliverDeadLetter 0 (fun _ => true) (fun _ => true) [(msgA, 1)]).2 ∧
    Event.ack msgA true ∈
      (deliverDeadLetter 0 (fun _ => true) (fun _ => true) [(msgA, 1)]).2 ∧
    (true = true →
      msgA ∉ keysFC (deliverDeadLetter 0 (fun _ => true) (fun _ => true) [(msgA, 1)]).1) ∧
    (true = false →
      (msgA, (1 : Int)) ∈ (deliverDeadLetter 0 (fun _ => true) (fun _ => true) [(msgA, 1)]).1) :=
  (c1_dead_letter_escalation 0 (fun _ => true) (fun _ => true) [(msgA, 1)]
    (by simp [keysFC]) msgA 1 (by simp)).2 (by omega)

lemma handlerMsg_append (cbF ackF : MsgEntity → Bool) : ∀ (l1 l2 : List MsgEntity)
    (t : FCTable),
    handlerMsg cbF ackF t (l1 ++ l2) =
      ((handlerMsg cbF ackF (handlerMsg cbF ackF t l1).1 l2).1,
        (handlerMsg cbF ackF t l1).2 ++
          (handlerMsg cbF ackF (handlerMsg cbF ackF t l1).1 l2).2) := by
  intro l1
  induction l1 with
  | nil =>
    intro l2 t
    simp [handlerMsg]
  | cons m rest ih =>
    intro l2 t
    rw [List.cons_append, handlerMsg_cons, ih, handlerMsg_cons cbF ackF t m rest]
    simp [List.append_assoc]

lemma mem_keys_incrFC (t : FCTable) (m : MsgEntity) :
    ∀ x ∈ keysFC (incrFC t m), x ∈ keysFC t ∨ x = m := by
  induction t with
  | nil => simp [incrFC, keysFC]
  | cons e rest ih =>
    intro x hx
    by_cases hm : e.1 = m
    · simp only [incrFC, hm, if_true, keysFC, List.map_cons, List.mem_cons] at hx ⊢
      rcases hx with hx | hx
      · exact Or.inl (Or.inl hx)
      · exact Or.inl (Or.inr hx)
    · simp only [incrFC, hm, if_false, keysFC, List.map_cons, List.mem_cons] at hx ⊢
      rcases hx with hx | hx
      · exact Or.inl (Or.inl hx)
      · rcases ih x hx with hc | hc
        · exact Or.inl (Or.inr hc)
        · exact Or.inr hc

lemma nodup_keys_incrFC (t : FCTable) (m : MsgEntity) (h : (keysFC t).Nodup) :
    (keysFC (incrFC t m)).Nodup := by
  induction t with
  | nil => simp [incrFC, keysFC]
  | cons e rest ih =>
    simp only [keysFC, List.map_cons, List.nodup_cons] at h
    by_cases hm : e.1 = m
    · simp only [incrFC, hm, if_true, keysFC, List.map_cons, List.nodup_cons]
      exact ⟨hm ▸ h.1, h.2⟩
    · simp only [incrFC, hm, if_false, keysFC, List.map_cons, List.nodup_cons]
      constructor
      · intro hc
        rcases mem_keys_incrFC rest m e.1 hc with hc2 | hc2
        · exact h.1 hc2
        · exact hm hc2
      · exact ih h.2

lemma nodup_keys_eraseFC (t : FCTable) (m : MsgEntity) (h : (keysFC t).Nodup) :
    (keysFC (eraseFC t m)).Nodup := by
  induction t with
  | nil => simp [eraseFC, keysFC]
  | cons e rest ih =>
    simp only [keysFC, List.map_cons, List.nodup_cons] at h
    by_cases hm : e.1 = m
    · simp only [eraseFC, hm, if_true]
      exact h.2
    · simp only [eraseFC, hm, if_false, keysFC, List.map_cons, List.nodup_cons]
      constructor
      · intro hc
        apply h.1
        simp only [List.mem_map] at hc ⊢
        obtain ⟨x, hx, hx1⟩ := hc
        exact ⟨x, mem_eraseFC rest m x hx, hx1⟩
      · exact ih h.2

lemma nodup_keys_handlerMsgStep (cbF ackF : MsgEntity → Bool) (t : FCTable)
    (m : MsgEntity) (h : (keysFC t).Nodup) :
    (keysFC (handlerMsgStep cbF ackF t m).1).Nodup := by
  by_cases hcb : cbF m
  · by_cases hack : ackF m
    · rw [show (handlerMsgStep cbF ackF t m).1 = eraseFC t m by
        simp [handlerMsgStep, hcb, hack]]
      exact nodup_keys_eraseFC t m h
    · rw [show (handlerMsgStep cbF ackF t m).1 = t by
        simp [handlerMsgStep, hcb, hack]]
      exact h
  · rw [show (handlerMsgStep cbF ackF t m).1 = incrFC t m by
      simp [handlerMsgStep, hcb]]
    exact nodup_keys_incrFC t m h

lemma nodup_keys_handlerMsg (cbF ackF : MsgEntity → Bool) :
    ∀ (msgs : List MsgEntity) (t : FCTable), (keysFC t).Nodup →
      (keysFC (handlerMsg cbF ackF t msgs).1).Nodup := by
  intro msgs
  induction msgs with
  | nil =>
    intro t h
    simpa [handlerMsg] using h
  | cons m rest ih =>
    intro t h
    rw [handlerMsg_cons]
    exact ih _ (nodup_keys_handlerMsgStep cbF ackF t m h)

lemma handlerMsgStep_cases (cbF ackF : MsgEntity → Bool) (t : FCTable)
    (m : MsgEntity) (hnd : (keysFC t).Nodup) :
    (cbF m = false →
      (handlerMsgStep cbF ackF t m).1 = incrFC t m ∧
      lookupFC (handlerMsgStep cbF ackF t m).1 m =
        some ((lookupFC t m).getD 0 + 1) ∧
      ∀ b, Event.ack m b ∉ (handlerMsgStep cbF ackF t m).2) ∧
    (cbF m = true → Event.ack m (ackF m) ∈ (handlerMsgStep cbF ackF t m).2) ∧
    (cbF m = true → ackF m = false → (handlerMsgStep cbF ackF t m).1 = t) ∧
    (cbF m = true → ackF m = true →
      lookupFC (handlerMsgStep cbF ackF t m).1 m = none) := by
  refine ⟨?_, ?_, ?_, ?_⟩
  · intro hcb
    refine ⟨by simp [handlerMsgStep, hcb], ?_, ?_⟩
    · simp [handlerMsgStep, hcb, lookupFC_incrFC]
    · intro b
      simp [handlerMsgStep, hcb]
  · intro hcb
    by_cases hack : ackF m <;> simp [handlerMsgStep, hcb, hack]
  · intro hcb hack
    simp [handlerMsgStep, hcb, hack]
  · intro hcb hack
    simp [handlerMsgStep, hcb, hack, lookupFC_eraseFC_of_nodup t m hnd]

/-- C2: for every message `m` of a claimed batch `pre ++ m :: post`, the
batch loop handlerMsg processes `m` by exactly one step at the table
reached after the preceding messages, and at that point: callback failure
increments the failure count of `m` by one and attempts no acknowledgment
for it; callback success attempts an acknowledgment; ack failure leaves
the table untouched (neither incremented nor cleared); ack success removes
any failure-count entry for `m`. -/
theorem c2_handler_msg_batch (cbF ackF : MsgEntity → Bool) (t : FCTable)
    (pre post : List MsgEntity) (m : MsgEntity) (hnd : (keysFC t).Nodup) :
    (handlerMsg cbF ackF t (pre ++ m :: post)).2 =
      (handlerMsg cbF ackF t pre).2 ++
        (handlerMsgStep cbF ackF (handlerMsg cbF ackF t pre).1 m).2 ++
        (handlerMsg cbF ackF
          (handlerMsgStep cbF ackF (handlerMsg cbF ackF t pre).1 m).1 post).2 ∧
    (cbF m = false →
      (handlerMsgStep cbF ackF (handlerMsg cbF ackF t pre).1 m).1 =
        incrFC (handlerMsg cbF ackF t pre).1 m ∧
      lookupFC (handlerMsgStep cbF ackF (handlerMsg cbF ackF t pre).1 m).1 m =
        some ((lookupFC (handlerMsg cbF ackF t pre).1 m).getD 0 + 1) ∧
      ∀ b, Event.ack m b ∉
        (handlerMsgStep cbF ackF (handlerMsg cbF ackF t pre).1 m).2) ∧
    (cbF m = true →
      Event.ack m (ackF m) ∈
        (handlerMsgStep cbF ackF (handlerMsg cbF ackF t pre).1 m).2) ∧
    (cbF m = true → ackF m = false →
      (handlerMsgStep cbF ackF (handlerMsg cbF ackF t pre).1 m).1 =
        (handlerMsg cbF ackF t pre).1) ∧
    (cbF m = true → ackF m = true →
      lookupFC (handlerMsgStep cbF ackF (handlerMsg cbF ackF t pre).1 m).1 m =
        none) := by
  have hc := handlerMsgStep_cases cbF ackF (handlerMsg cbF ackF t pre).1 m
    (nodup_keys_handlerMsg cbF ackF pre t hnd)
  refine ⟨?_, hc.1, hc.2.1, hc.2.2.1, hc.2.2.2⟩
  rw [handlerMsg_append cbF ackF pre (m :: post) t,
    handlerMsg_cons cbF ackF (handlerMsg cbF ackF t pre).1 m post]
  simp [List.append_assoc]

/-- Witness for C2: a one-message batch whose callback fails on the empty
table creates the entry with count 1, and the batch trace is the trace of
that single step. -/
theorem c2_handler_msg_batch_witness :
    (handlerMsg (fun _ => false) (fun _ => true) [] ([] ++ msgA :: [])).2 =
      (handlerMsg (fun _ => false) (fun _ => true) [] []).2 ++
        (handlerMsgStep (fun _ => false) (fun _ => true)
          (handlerMsg (fun _ => false) (fun _ => true) [] []).1 msgA).2 ++
        (handlerMsg (fun _ => false) (fun _ => true)
          (handlerMsgStep (fun _ => false) (fun _ => true)
            (handlerMsg (fun _ => false) (fun _ => true) [] []).1 msgA).1 []).2 ∧
    lookupFC (handlerMsgStep (fun _ => false) (fun _ => true)
        (handlerMsg (fun _ => false) (fun _ => true) [] []).1 msgA).1 msgA =
      some ((lookupFC (handlerMsg (fun _ => false) (fun _ => true) [] []).1
        msgA).getD 0 + 1) :=
  ⟨(c2_handler_msg_batch (fun _ => false) (fun _ => true) [] [] [] msgA
      (by simp [keysFC])).1,
    ((c2_handler_msg_batch (fun _ => false) (fun _ => true) [] [] [] msgA
      (by simp [keysFC])).2.1 rfl).2.1⟩

/-- C4 counterexample: with retry limit 0, a dead-letter delivery that
fails and an acknowledgment that succeeds, the failure-count entry is
removed even though the dead-letter delivery itself did not succeed,
refuting the parenthetical of the claim. -/
theorem c4_counterexample :
    (fun _ => false : MsgEntity → Bool) msgA = false ∧
    (deliverDeadLetter 0 (fun _ => false) (fun _ => true) [(msgA, 1)]).1 = [] :=
  ⟨rfl, rfl⟩

/-- C4 amended: a failure-count entry is created with count 1 on the first
processing failure, incremented on each subsequent failure, and removed
only on successful acknowledgment: in the handling path removal implies
callback success and ack success, and in the escalation path removal
implies the count reached the limit and the ack succeeded, regardless of
the dead-letter delivery outcome. -/
theorem c4_failure_count_lifecycle (cbF ackF dF ackDL : MsgEntity → Bool)
    (lim : Int) (t : FCTable) (m : MsgEntity) (hnd : (keysFC t).Nodup) :
    (cbF m = false → lookupFC t m = none →
      lookupFC (handlerMsgStep cbF ackF t m).1 m = some 1) ∧
    (∀ n, cbF m = false → lookupFC t m = some n →
      lookupFC (handlerMsgStep cbF ackF t m).1 m = some (n + 1)) ∧
    (∀ c, lookupFC t m = some c →
      lookupFC (handlerMsgStep cbF ackF t m).1 m = none →
      cbF m = true ∧ ackF m = true) ∧
    (∀ c, (m, c) ∈ t → m ∉ keysFC (deliverDeadLetter lim dF ackDL t).1 →
      lim ≤ c ∧ ackDL m = true) := by
  refine ⟨?_, ?_, ?_, ?_⟩
  · intro hcb hl
    simp [handlerMsgStep, hcb, lookupFC_incrFC, hl]
  · intro n hcb hl
    simp [handlerMsgStep, hcb, lookupFC_incrFC, hl]
  · intro c hl hnone
    by_cases hcb : cbF m
    · by_cases hack : ackF m
      · exact ⟨hcb, hack⟩
      · exfalso
        rw [show (handlerMsgStep cbF ackF t m).1 = t by
          simp [handlerMsgStep, hcb, hack]] at hnone
        rw [hl] at hnone
        simp at hnone
    · exfalso
      rw [show (handlerMsgStep cbF ackF t m).1 = incrFC t m by
        simp [handlerMsgStep, hcb]] at hnone
      rw [lookupFC_incrFC] at hnone
      simp at hnone
  · intro c hmem hrem
    exact (dl_kept_iff lim dF ackDL t hnd m c hmem).1 hrem

/-- Witness for C4 at a first failure on the empty table. -/
theorem c4_failure_count_lifecycle_witness :
    lookupFC (handlerMsgStep (fun _ => false) (fun _ => true) [] msgA).1 msgA =
      some 1 :=
  (c4_failure_count_lifecycle (fun _ => false) (fun _ => true) (fun _ => true)
    (fun _ => true) 0 [] msgA (by simp [keysFC])).1 rfl rfl

/-- C8: a configured retry limit of 0 is preserved by the defaulting step,
and after a single callback failure of a fresh message the entry has count
1, which qualifies for dead-letter delivery on the next escalation scan. -/
theorem c8_zero_retry_limit (o : ConsumerOptions) (ho : o.maxRetryLimit = 0)
    (cbF ackF dF ackDL : MsgEntity → Bool) (t : FCTable) (m : MsgEntity)
    (habsent : lookupFC t m = none) (hcb : cbF m = false) :
    (repairConsumer o).maxRetryLimit = 0 ∧
    lookupFC (handlerMsgStep cbF ackF t m).1 m = some 1 ∧
    Event.deliver m (dF m) ∈
      (deliverDeadLetter 0 dF ackDL (handlerMsgStep cbF ackF t m).1).2 := by
  refine ⟨?_, ?_, ?_⟩
  · simp [repairConsumer, ho]
  · simp [handlerMsgStep, hcb, lookupFC_incrFC, habsent]
  · have hmem : (m, (1 : Int)) ∈ (handlerMsgStep cbF ackF t m).1 := by
      rw [show (handlerMsgStep cbF ackF t m).1 = incrFC t m by
        simp [handlerMsgStep, hcb]]
      exact mem_incrFC_of_lookup_none t m habsent
    exact (dl_escalated 0 dF ackDL _ m 1 hmem (by omega)).1

/-- Witness for C8 at the zero options record and the sample message. -/
theorem c8_zero_retry_limit_witness :
    (repairConsumer emptyConsumerOptions).maxRetryLimit = 0 ∧
    lookupFC (handlerMsgStep (fun _ => false) (fun _ => true) [] msgA).1 msgA =
      some 1 ∧
    Event.deliver msgA true ∈
      (deliverDeadLetter 0 (fun _ => true) (fun _ => true)
        (handlerMsgStep (fun _ => false) (fun _ => true) [] msgA).1).2 :=
  c8_zero_retry_limit emptyConsumerOptions rfl (fun _ => false) (fun _ => true)
    (fun _ => true) (fun _ => true) [] msgA rfl rfl

/-- C10: in every failure-count table reachable from the empty table by
message-handling and dead-letter-escalation phases, every entry has a
count of at least 1. -/
theorem c10_failure_counts_positive (t : FCTable) (h : ReachableFC t)
    (m : MsgEntity) (c : Int) (hmem : (m, c) ∈ t) : 1 ≤ c := by
  suffices hs : ∀ e ∈ t, 1 ≤ e.2 from hs (m, c) hmem
  clear hmem
  induction h with
  | init => simp
  | handle cbF ackF msgs _ ih => exact handlerMsg_counts cbF ackF msgs _ ih
  | escalate lim dF ackF _ ih => exact dl_counts lim dF ackF _ ih

/-- Witness for C10: the table reached by one failing callback on the
sample message contains its entry with count 1. -/
theorem c10_failure_counts_positive_witness : (1 : Int) ≤ 1 :=
  c10_failure_counts_positive
    (handlerMsg (fun _ => false) (fun _ => true) [] [msgA]).1
    (ReachableFC.handle (fun _ => false) (fun _ => true) [msgA] ReachableFC.init)
    msgA 1 (by simp [handlerMsg, handlerMsgStep, incrFC])

lemma guardOD_append (l1 l2 : List Event) : ∀ seen : MsgEntity → Bool,
    ackAfterCbSuccessOrDeliver seen (l1 ++ l2) =
      (ackAfterCbSuccessOrDeliver seen l1 &&
        ackAfterCbSuccessOrDeliver (seenAfterG seen l1) l2) := by
  induction l1 with
  | nil =>
    intro seen
    simp [ackAfterCbSuccessOrDeliver, seenAfterG]
  | cons ev rest ih =>
    intro seen
    cases ev with
    | cb m ok =>
      cases ok
      · simp only [List.cons_append, ackAfterCbSuccessOrDeliver, seenAfterG]
        exact ih seen
      · simp only [List.cons_append, ackAfterCbSuccessOrDeliver, seenAfterG]
        exact ih _
    | deliver m ok =>
      simp only [List.cons_append, ackAfterCbSuccessOrDeliver, seenAfterG]
      exact ih _
    | ack m ok =>
      simp only [List.cons_append, ackAfterCbSuccessOrDeliver, seenAfterG]
      rw [show rest.append l2 = rest ++ l2 from rfl, ih seen, Bool.and_assoc]

lemma hm_step_guard (cbF ackF : MsgEntity → Bool) (seen : MsgEntity → Bool)
    (t : FCTable) (m : MsgEntity) :
    ackAfterCbSuccessOrDeliver seen (handlerMsgStep cbF ackF t m).2 = true := by
  by_cases hcb : cbF m
  · by_cases hack : ackF m <;>
      simp [handlerMsgStep, hcb, hack, ackAfterCbSuccessOrDeliver]
  · simp [handlerMsgStep, hcb, ackAfterCbSuccessOrDeliver]

lemma hm_guard (cbF ackF : MsgEntity → Bool) : ∀ (msgs : List MsgEntity)
    (t : FCTable) (seen : MsgEntity → Bool),
    ackAfterCbSuccessOrDeliver seen (handlerMsg cbF ackF t msgs).2 = true := by
  intro msgs
  induction msgs with
  | nil =>
    intro t seen
    simp [handlerMsg, ackAfterCbSuccessOrDeliver]
  | cons m rest ih =>
    intro t seen
    rw [handlerMsg_cons]
    simp only [guardOD_append, hm_step_guard, ih, Bool.and_self]

lemma dl_step_guard (lim : Int) (dF ackF : MsgEntity → Bool)
    (seen : MsgEntity → Bool) (e : MsgEntity × Int) :
    ackAfterCbSuccessOrDeliver seen (dlStep lim dF ackF e).2 = true := by
  by_cases h1 : e.2 < lim
  · simp [dlStep_low lim dF ackF e h1, ackAfterCbSuccessOrDeliver]
  · simp [dlStep_high lim dF ackF e h1, ackAfterCbSuccessOrDeliver]

lemma dl_guard (lim : Int) (dF ackF : MsgEntity → Bool) : ∀ (t : FCTable)
    (seen : MsgEntity → Bool),
    ackAfterCbSuccessOrDeliver seen (deliverDeadLetter lim dF ackF t).2 = true := by
  intro t
  induction t with
  | nil =>
    intro seen
    simp [deliverDeadLetter, ackAfterCbSuccessOrDeliver]
  | cons e rest ih =>
    intro seen
    rw [dl_cons]
    simp only [guardOD_append, dl_step_guard, ih, Bool.and_self]

lemma iter_guard (lim : Int) (t : FCTable) (inp : IterInput)
    (seen : MsgEntity → Bool) :
    ackAfterCbSuccessOrDeliver seen (runIteration lim t inp).2 = true := by
  unfold runIteration
  by_cases hr : inp.receiveErr
  · simp [hr, ackAfterCbSuccessOrDeliver]
  · by_cases hp : inp.pendingErr <;>
      simp [hr, hp, guardOD_append, hm_guard, dl_guard]

lemma runLoop_cons (lim : Int) (t : FCTable) (inp : IterInput)
    (rest : List IterInput) :
    runLoop lim t (inp :: rest) =
      ((runLoop lim (runIteration lim t inp).1 rest).1,
        (runIteration lim t inp).2 ++
          (runLoop lim (runIteration lim t inp).1 rest).2) :=
  rfl

lemma run_guard (lim : Int) : ∀ (inputs : List IterInput) (t : FCTable)
    (seen : MsgEntity → Bool),
    ackAfterCbSuccessOrDeliver seen (runLoop lim t inputs).2 = true := by
  intro inputs
  induction inputs with
  | nil =>
    intro t seen
    simp [runLoop, ackAfterCbSuccessOrDeliver]
  | cons inp rest ih =>
    intro t seen
    rw [runLoop_cons]
    simp only [guardOD_append, iter_guard, ih, Bool.and_self]

/-- C3 counterexample: a concrete run with retry limit 0 in which the
callback fails on the sample message and the escalation phase then
acknowledges it, so the trace contains an acknowledgment with no earlier
callback success for that message. -/
theorem c3_counterexample :
    ackAfterCbSuccess (fun _ => false) (runLoop 0 [] [cbFailInput]).2 = false :=
  rfl

/-- C3 amended: in every run of the delivery loop, an acknowledgment is
issued for a message only after either its callback has returned success
or a dead-letter delivery attempt has been made for it (the escalation
path acknowledges messages whose callback never succeeded). -/
theorem c3_ack_after_cb_success_or_escalation (lim : Int) (t : FCTable)
    (inputs : List IterInput) :
    ackAfterCbSuccessOrDeliver (fun _ => false) (runLoop lim t inputs).2 = true :=
  run_guard lim inputs t (fun _ => false)

/-- C7: each consumer option is defaulted independently and only at its
unset sentinel: receive timeout 2s when negative, max retry limit 3 when
negative, the logging-only mailbox when absent, dead-letter deliver timeout
1s when at most 0, handle timeout 1s when at most 0; otherwise the field is
preserved unchanged. -/
theorem c7_repairConsumer_defaults (o : ConsumerOptions) :
    (o.receiveTimeout < 0 → (repairConsumer o).receiveTimeout = 2 * timeSecond) ∧
    (0 ≤ o.receiveTimeout → (repairConsumer o).receiveTimeout = o.receiveTimeout) ∧
    (o.maxRetryLimit < 0 → (repairConsumer o).maxRetryLimit = 3) ∧
    (0 ≤ o.maxRetryLimit → (repairConsumer o).maxRetryLimit = o.maxRetryLimit) ∧
    (o.deadLetterMailbox = none →
      (repairConsumer o).deadLetterMailbox = some NewDeadLetterLogger) ∧
    (∀ f, o.deadLetterMailbox = some f → (repairConsumer o).deadLetterMailbox = some f) ∧
    (o.deadLetterDeliverTimeout ≤ 0 →
      (repairConsumer o).deadLetterDeliverTimeout = timeSecond) ∧
    (0 < o.deadLetterDeliverTimeout →
      (repairConsumer o).deadLetterDeliverTimeout = o.deadLetterDeliverTimeout) ∧
    (o.handleMsgTimeout ≤ 0 → (repairConsumer o).handleMsgTimeout = timeSecond) ∧
    (0 < o.handleMsgTimeout → (repairConsumer o).handleMsgTimeout = o.handleMsgTimeout) := by
  refine ⟨?_, ?_, ?_, ?_, ?_, ?_, ?_, ?_, ?_, ?_⟩ <;> intro h
  · simp [repairConsumer, h]
  · simp [repairConsumer, not_lt.2 h]
  · simp [repairConsumer, h]
  · simp [repairConsumer, not_lt.2 h]
  · simp [repairConsumer, h]
  · intro hf
    simp [repairConsumer, hf]
  · simp [repairConsumer, h]
  · simp [repairConsumer, not_le.2 h]
  · simp [repairConsumer, h]
  · simp [repairConsumer, not_le.2 h]

/-- Witness for C7 at a fully unset options record. -/
theorem c7_repairConsumer_defaults_witness :
    (repairConsumer ⟨-1, -1, none, 0, 0⟩).receiveTimeout = 2 * timeSecond ∧
    (repairConsumer ⟨-1, -1, none, 0, 0⟩).maxRetryLimit = 3 ∧
    (repairConsumer ⟨-1, -1, none, 0, 0⟩).deadLetterMailbox = some NewDeadLetterLogger ∧
    (repairConsumer ⟨-1, -1, none, 0, 0⟩).deadLetterDeliverTimeout = timeSecond ∧
    (repairConsumer ⟨-1, -1, none, 0, 0⟩).handleMsgTimeout = timeSecond := by
  have h := c7_repairConsumer_defaults ⟨-1, -1, none, 0, 0⟩
  exact ⟨h.1 (by decide), h.2.2.1 (by decide), h.2.2.2.2.1 rfl,
    h.2.2.2.2.2.2.1 (by decide), h.2.2.2.2.2.2.2.2.1 (by decide)⟩

/-- C9: Stop is idempotent: any positive number of invocations equals one
invocation; it only sets the cancellation flag and leaves every other
field, in particular the failure-count table, unchanged. -/
theorem c9_stop_idempotent (c : Consumer) (n : Nat) (hn : 1 ≤ n) :
    Stop^[n] c = Stop c ∧
    (Stop c).ctxCancelled = true ∧
    (Stop c).failureCounts = c.failureCounts ∧
    (Stop c).callbackSet = c.callbackSet ∧
    (Stop c).clientSet = c.clientSet ∧
    (Stop c).topic = c.topic ∧
    (Stop c).groupID = c.groupID ∧
    (Stop c).consumerID = c.consumerID ∧
    (Stop c).opts = c.opts ∧
    (Stop c).goroutineCount = c.goroutineCount := by
  refine ⟨?_, rfl, rfl, rfl, rfl, rfl, rfl, rfl, rfl, rfl⟩
  obtain ⟨k, rfl⟩ := Nat.exists_eq_add_of_le hn
  rw [Nat.add_comm, Function.iterate_succ_apply]
  exact Function.iterate_fixed rfl k

/-- Witness for C9 at the sample consumer with two invocations. -/
theorem c9_stop_idempotent_witness :
    Stop^[2] sampleConsumer = Stop sampleConsumer ∧
    (Stop sampleConsumer).ctxCancelled = true ∧
    (Stop sampleConsumer).failureCounts = sampleConsumer.failureCounts ∧
    (Stop sampleConsumer).callbackSet = sampleConsumer.callbackSet ∧
    (Stop sampleConsumer).clientSet = sampleConsumer.clientSet ∧
    (Stop sampleConsumer).topic = sampleConsumer.topic ∧
    (Stop sampleConsumer).groupID = sampleConsumer.groupID ∧
    (Stop sampleConsumer).consumerID = sampleConsumer.consumerID ∧
    (Stop sampleConsumer).opts = sampleConsumer.opts ∧
    (Stop sampleConsumer).goroutineCount = sampleConsumer.goroutineCount :=
  c9_stop_idempotent sampleConsumer 2 (by decide)

/-- C6 counterexample: with non-empty parameters and a reply of 2, at least
one record was acknowledged, yet XAck returns an error, refuting the claim
that it succeeds whenever the reply is at least 1. -/
theorem c6_xack_counterexample :
    (1 : Int) ≤ 2 ∧ (XAck "t" "g" "m" 2).isOk = false := by
  constructor
  · decide
  · rfl

/-- C6 amended: given a successful round trip with non-empty topic, group
and message id, XAck succeeds exactly when the reply equals 1 (so a reply
of 0 fails, as the original claim states, but so does any reply other
than 1). -/
theorem c6_xack_reply_check (topic groupID msgID : String) (reply : Int)
    (ht : topic ≠ "") (hg : groupID ≠ "") (hm : msgID ≠ "") :
    (XAck topic groupID msgID reply).isOk = true ↔ reply = 1 := by
  rcases eq_or_ne reply 1 with hr | hr
  · simp [XAck, ht, hg, hm, hr, Except.isOk, Except.toBool]
  · simp [XAck, ht, hg, hm, hr, Except.isOk, Except.toBool]

/-- Witness for C6 amended at concrete non-empty parameters and reply 1. -/
theorem c6_xack_reply_check_witness :
    (XAck "t" "g" "m" 1).isOk = true ↔ (1 : Int) = 1 :=
  c6_xack_reply_check "t" "g" "m" 1 (by decide) (by decide) (by decide)

/-- C5: NewConsumer fails exactly when the callback is unset, the client is
unset, or one of topic, group id, consumer id is empty; on success exactly
one background goroutine is started, on failure none. -/
theorem c5_newConsumer_check (clientSet : Bool) (topic groupID consumerID : String)
    (cbSet : Bool) (opts : List (ConsumerOptions → ConsumerOptions)) :
    ((NewConsumer clientSet topic groupID consumerID cbSet opts).isOk = false ↔
      (cbSet = false ∨ clientSet = false ∨ topic = "" ∨ groupID = "" ∨ consumerID = "")) ∧
    (startedCount (NewConsumer clientSet topic groupID consumerID cbSet opts) =
      if (NewConsumer clientSet topic groupID consumerID cbSet opts).isOk then 1 else 0) := by
  rcases cbSet with _ | _ <;> rcases clientSet with _ | _ <;>
    by_cases ht : topic = "" <;> by_cases hc : consumerID = "" <;> by_cases hg : groupID = "" <;>
      simp [NewConsumer, checkParam, startedCount, ht, hc, hg, Except.isOk, Except.toBool]

/-- Witness for C5: valid parameters construct a consumer with exactly one
started goroutine, and no unset condition holds. -/
theorem c5_newConsumer_check_witness :
    ((NewConsumer true "t" "g" "cid" true []).isOk = false ↔
      (true = false ∨ true = false ∨ "t" = "" ∨ "g" = "" ∨ "cid" = "")) ∧
    (startedCount (NewConsumer true "t" "g" "cid" true []) =
      if (NewConsumer true "t" "g" "cid" true []).isOk then 1 else 0) :=
  c5_newConsumer_check true "t" "g" "cid" true []

end RedisMQ
